import Mathlib

/-!
Verification of the clientworks orchestration core against its
natural-language specification.

The repository is a Tauri application: the TypeScript presentation layer
(src/Auth.tsx, src/ClientManager.tsx, src/Servers.tsx, src/Clients.tsx,
src/ClientTypes.tsx) is available and is embedded here directly.  The Rust
backend implementing the invoked commands (auth_offline, auth_ms_cache,
auth_ms_finish, add_server, create_connection, send_chat,
recall_authentication, ...) is not part of the available sources; where a
claim depends on backend behaviour, the backend operation is modelled from
the specification and the definition's doc comment says so.
-/

namespace Clientworks

/-! ## Data model (src/ClientTypes.tsx) -/

/-- From ClientTypes.tsx: ServerEntry has name, ip and port. -/
structure ServerEntry where
  name : String
  ip : String
  port : Nat
deriving DecidableEq, Repr

/-- From ClientTypes.tsx: the client summary entry used by the interface. -/
structure ClientEntry where
  id : String
  username : String
  auth : Bool
  uuid : Option String
  instance_count : Nat
deriving DecidableEq, Repr

/-- From ClientTypes.tsx: resolved Minecraft profile data.  The skin and cape
sets are opaque to every claim considered here and are modelled as lists of
strings. -/
structure MinecraftProfile where
  uuid : String
  username : String
  skins : List String
  capes : List String
deriving DecidableEq, Repr

/-- From ClientManager.tsx: the frontend connection row (id, server name,
version, liveness flag). -/
structure Connection where
  id : String
  server : String
  version : String
  connected : Bool
deriving DecidableEq, Repr

/-- From ClientManager.tsx: the backend connection record carried by the
get_instances poll response (id, full server entry, version). -/
structure BackendClientConnection where
  id : String
  server : ServerEntry
  version : String
deriving DecidableEq, Repr

/-! ## JavaScript string trimming -/

/-- Characters up to the first non-whitespace character removed. -/
def dropWhitespaceLeft : List Char → List Char
  | [] => []
  | c :: cs => if c.isWhitespace then dropWhitespaceLeft cs else c :: cs

/-- The JavaScript String.prototype.trim operation used by the source's
blank-input guards: leading and trailing whitespace removed.  (Defined by
structural recursion so that concrete instances evaluate.) -/
def jsTrim (s : String) : String :=
  ⟨(dropWhitespaceLeft (dropWhitespaceLeft s.data).reverse).reverse⟩

/-! ## C2 — offline authentication (Auth.tsx offlineAuth; backend modelled) -/

/-- Modelled from the spec: the Rust backend command auth_offline is not under
src; per spec §4.1 it "creates or reuses a deterministic offline profile
(same username must always yield the same derived profile identifier; no
network call)".  The derivation is modelled as a pure function of the
username alone. -/
def deriveOfflineProfileId (username : String) : String :=
  "OfflinePlayer:" ++ username

/-- Modelled from the spec: a registered offline client, as created by
auth_offline — a derived profile identifier and the username it was derived
from. -/
structure OfflineClient where
  id : String
  username : String
deriving DecidableEq, Repr

/-- Modelled from the spec: auth_offline "creates or reuses" the offline
profile: if a client with the derived identifier is already registered it is
reused, otherwise it is registered.  The call returns the derived identifier
together with the updated registry; being a pure Lean function, it performs
no network call. -/
def authenticateOffline (reg : List OfflineClient) (username : String) :
    String × List OfflineClient :=
  let pid := deriveOfflineProfileId username
  if reg.any (fun c => c.id == pid) then (pid, reg)
  else (pid, reg ++ [⟨pid, username⟩])

/-! ## C10 — finishAuth always registers (Auth.tsx; backend cache modelled) -/

/-- From Auth.tsx finishAuth: the exact argument record passed to the
auth_ms_finish command. -/
structure MsFinishInvoke where
  loginKey : String
  register : Bool
deriving DecidableEq, Repr

/-- From Auth.tsx: finishAuth(key) invokes auth_ms_finish with
loginKey = key and register = true. -/
def finishAuth (key : String) : MsFinishInvoke :=
  ⟨key, true⟩

/-- Modelled from the spec: the Rust backend finishDeviceFlow(loginKey,
persist) is not under src; per spec §4.1 it "optionally stores it under
loginKey in the cache when persist is true".  The credential cache is a keyed
collection from login key to token. -/
def finishDeviceFlow (cache : List (String × String)) (key : String)
    (persist : Bool) (token : String) : List (String × String) :=
  if persist then (key, token) :: cache.filter (fun e => e.1 ≠ key) else cache

/-! ## C5 — cache-miss fallback (Auth.tsx handleAuthenticate) -/

/-- From Auth.tsx handleAuthenticate (microsoft branch): the externally
observable action taken once the cachedAuth promise settles.  On success the
result is completed (completeAuth: success label + onFinish); on failure the
handler logs the error and invokes auth_ms_init with the same loginKey. -/
inductive MsAuthAction where
  | complete (result : String × MinecraftProfile)
  | deviceFlowInit (loginKey : String)
deriving DecidableEq, Repr

/-- From Auth.tsx handleAuthenticate: the label state set by the handler
while reacting to the cachedAuth outcome.  The catch handler around
cachedAuth only logs and falls back — it never writes an error label (the
rethrow inside the inner promise chain escapes the surrounding try block,
which has already returned). -/
def msAuthStep (loginKey : String)
    (cachedResult : Except String (String × MinecraftProfile)) :
    MsAuthAction × Option String :=
  match cachedResult with
  | .ok r => (.complete r, none)
  | .error _ => (.deviceFlowInit loginKey, none)

/-- From Auth.tsx handleAuthenticate: the guard at the top of the handler —
a blank login key short-circuits into an error label before any
authentication path runs. -/
def handleAuthenticateMs (loginKey : String)
    (cachedResult : Except String (String × MinecraftProfile)) :
    Option (MsAuthAction × Option String) :=
  if jsTrim loginKey = "" then none
  else some (msAuthStep loginKey cachedResult)

/-! ## C3 — chat event ordering (ClientManager.tsx listen callback) -/

/-- From ClientManager.tsx: the chat event payload. -/
structure ChatEventPayload where
  message : String
deriving DecidableEq, Repr

/-- From ClientManager.tsx: the payload wrapper — the event payload carries a
Chat field holding the message record. -/
structure ChatPayloadWrapper where
  Chat : ChatEventPayload
deriving DecidableEq, Repr

/-- From ClientManager.tsx: the chat event delivered on a connection's
channel. -/
structure ChatEvent where
  event : String
  id : Option Nat
  payload : ChatPayloadWrapper
deriving DecidableEq, Repr

/-- From ClientManager.tsx: the listen callback registered when a connection
row is expanded.  chatHistory is a record from connection id to message list;
an absent key reads as the empty list (the source's or-else default).  Each
event appends its chat message at the tail of the subscribed connection's
history and touches no other key. -/
def chatListenStep (connId : String) (history : String → List String)
    (e : ChatEvent) : String → List String :=
  fun k =>
    if k = connId then history connId ++ [e.payload.Chat.message]
    else history k

/-- From ClientManager.tsx: the accumulated effect of the listen callback
over a sequence of delivered events on one connection channel. -/
def processChatEvents (connId : String) (history : String → List String)
    (events : List ChatEvent) : String → List String :=
  events.foldl (chatListenStep connId) history

/-! ## C1 — duplicate connection rejection (ClientManager.tsx Create button;
backend create_connection modelled) -/

/-- Modelled from the spec: a backend connection-table entry — serverRef,
protocolVersion and the opaque connection id (spec §3 Connection). -/
structure ConnEntry where
  id : String
  server : String
  version : String
deriving DecidableEq, Repr

/-- Modelled from the spec: the error raised by create_connection on a
duplicate (serverName, version) pair (spec §4.2, §7). -/
inductive CreateConnError where
  | DuplicateConnectionError
deriving DecidableEq, Repr

/-- Modelled from the spec: the Rust backend command create_connection is not
under src; per spec §4.2 it "fails with DuplicateConnectionError if
(serverName, version) already exists for this Client; otherwise allocates a
new Connection ... and returns its id".  The call is modelled as state
passing on the client's connection table, returning the allocated id or the
error together with the table after the call. -/
def createConnection (table : List ConnEntry) (serverName version newId : String) :
    Except CreateConnError String × List ConnEntry :=
  if table.any (fun c => c.server == serverName && c.version == version) then
    (.error .DuplicateConnectionError, table)
  else
    (.ok newId, table ++ [⟨newId, serverName, version⟩])

/-- A sequence of create_connection requests applied in order; each request
is (serverName, version, newId). -/
def applyCreates (table : List ConnEntry) :
    List (String × String × String) → List ConnEntry
  | [] => table
  | (s, v, i) :: rest => applyCreates (createConnection table s v i).2 rest

/-- The table invariant of spec §3: within one client no two connections
share the (serverRef, protocolVersion) pair. -/
def UniquePairs (table : List ConnEntry) : Prop :=
  table.Pairwise (fun a b => ¬(a.server = b.server ∧ a.version = b.version))

/-- From ClientManager.tsx (Create button onClick): the observable action of
the frontend duplicate guard. -/
inductive CreateClickAction where
  | noAction
  | setError (msg : String)
  | invokeCreate (id serverName version : String)
deriving DecidableEq, Repr

/-- From ClientManager.tsx (Create button onClick): with both a version and a
server selected, an existing connection row with the same server and version
sets the error label and returns without invoking create_connection;
otherwise the create_connection command is invoked with the selected pair. -/
def createButtonClick (clientId : String) (connections : List Connection)
    (selectedServer selectedVersion : String) : CreateClickAction :=
  if selectedVersion ≠ "" && selectedServer ≠ "" then
    if connections.any
        (fun c => c.server == selectedServer && c.version == selectedVersion) then
      .setError "Connection with this server and version already exists"
    else
      .invokeCreate clientId selectedServer selectedVersion
  else
    .noAction

/-! ## C4 — duplicate server rejection (Servers.tsx handleSubmit; backend
add_server modelled) -/

/-- Modelled from the spec: the error raised by add_server on a duplicate
name (spec §4.3, §7). -/
inductive AddServerError where
  | DuplicateServerError
deriving DecidableEq, Repr

/-- Modelled from the spec: the persisted server-registry document is a
serialization of the keyed collection of entries (spec §6 persistence
contract).  Any injective-enough rendering serves; each entry is rendered as
its fields separated by separators. -/
def serializeServers (servers : List ServerEntry) : String :=
  String.intercalate ";"
    (servers.map (fun s => s.name ++ "," ++ s.ip ++ "," ++ toString s.port))

/-- Modelled from the spec: the server-registry state — the in-memory entry
list and the persisted registry document. -/
structure ServerStore where
  servers : List ServerEntry
  doc : String
deriving DecidableEq, Repr

/-- Modelled from the spec: the Rust backend command add_server is not under
src; per spec §4.3 it "fails with DuplicateServerError if the name already
exists and must not mutate the persisted registry on failure"; on success the
entry is appended and the registry document rewritten (spec §6). -/
def addServer (st : ServerStore) (entry : ServerEntry) :
    Except AddServerError Unit × ServerStore :=
  if st.servers.any (fun s => s.name == entry.name) then
    (.error .DuplicateServerError, st)
  else
    let servers := st.servers ++ [entry]
    (.ok (), ⟨servers, serializeServers servers⟩)

/-- From Servers.tsx handleSubmit: the entry is appended to the rendered
server list only when the add_server invocation succeeds; on failure the
error is logged and the list is left as it was. -/
def handleSubmitServers (servers : List ServerEntry)
    (input : ServerEntry) (result : Except AddServerError Unit) :
    List ServerEntry :=
  match result with
  | .ok _ => servers ++ [input]
  | .error _ => servers

/-! ## C6 — blank chat messages (ClientManager.tsx sendChatMessage and its
call sites; backend send_chat modelled) -/

/-- From ClientManager.tsx sendChatMessage: the exact argument record passed
to the send_chat command. -/
structure SendChatInvoke where
  id : String
  key : String
  message : String
deriving DecidableEq, Repr

/-- From ClientManager.tsx sendChatMessage: the command is invoked only when
a client is loaded and the chatMessage input state trims to a non-empty
string; the forwarded message is the function's message parameter.  (The
source also tests the allowed state object, which as a non-null object is
always truthy, so only the client test can cut the path short.) -/
def sendChatMessage (client : Option ClientEntry) (chatMessage : String)
    (connection : Connection) (message : String) : Option SendChatInvoke :=
  match client with
  | none => none
  | some c =>
      if jsTrim chatMessage ≠ "" then
        some ⟨c.id, connection.id, message⟩
      else none

/-- From ClientManager.tsx (chat input onKeyDown): on Enter with a non-blank
chatMessage state, sendChatMessage is called with the chatMessage state as
the message. -/
def chatInputKeyDown (key : String) (client : Option ClientEntry)
    (chatMessage : String) (connection : Connection) : Option SendChatInvoke :=
  if key = "Enter" ∧ jsTrim chatMessage ≠ "" then
    sendChatMessage client chatMessage connection chatMessage
  else none

/-- From ClientManager.tsx (Send button onClick): with a non-blank
chatMessage state, sendChatMessage is called with the chatMessage state as
the message. -/
def sendButtonClick (client : Option ClientEntry) (chatMessage : String)
    (connection : Connection) : Option SendChatInvoke :=
  if jsTrim chatMessage ≠ "" then
    sendChatMessage client chatMessage connection chatMessage
  else none

/-- Modelled from the spec: errors of sendChat (spec §4.2, §7). -/
inductive SendChatError where
  | EmptyMessageError
  | NotConnectedError
deriving DecidableEq, Repr

/-- Modelled from the spec: the Rust backend command send_chat is not under
src; per spec §4.2 sendChat "forwards message to the session handle; fails
with NotConnectedError if the Connection is not in state Connected; fails
with EmptyMessageError if message is blank".  On success the forwarded
message is returned. -/
def sendChat (connected : Bool) (message : String) :
    Except SendChatError String :=
  if jsTrim message = "" then .error .EmptyMessageError
  else if connected then .ok message
  else .error .NotConnectedError

/-! ## C7 — recallAuthentication frame condition (ClientManager.tsx
useLayoutEffect; backend modelled) -/

/-- Modelled from the spec: the cached token material associated with a
registered client — the bearer token and its validity window end (spec §3
AuthCacheEntry). -/
structure CachedToken where
  token : String
  validUntil : Nat
deriving DecidableEq, Repr

/-- Modelled from the spec: a registered client with its profile data and its
associated cached token, if any. -/
structure StoredClient where
  id : String
  profile : MinecraftProfile
  cachedToken : Option CachedToken
deriving DecidableEq, Repr

/-- Modelled from the spec: the Rust backend command recall_authentication is
not under src; per spec §4.1 it "re-validates its associated cached token (if
any) without prompting; returns a boolean validity flag; never mutates
profile data on failure".  On a valid token the cache entry is refreshed on
reuse (spec §3), modelled as extending the validity window; on an absent or
expired token the client is returned untouched with a false flag. -/
def recallAuthentication (now : Nat) (c : StoredClient) : Bool × StoredClient :=
  match c.cachedToken with
  | none => (false, c)
  | some t =>
      if now < t.validUntil then
        (true, ⟨c.id, c.profile, some ⟨t.token, t.validUntil + 1⟩⟩)
      else (false, c)

/-! ## C8 — the acknowledged auth race (Auth.tsx finalizeAuthentication doc
comment and handleAuthenticate; backend registration modelled) -/

/-- Modelled from the spec: identity registration is keyed by call arrival
order and fails when the identity is already registered; the error message is
the one the source documents (Auth.tsx finalizeAuthentication doc comment:
"Client <username> already exists"). -/
def registerClient (reg : List String) (u : String) :
    Except String (List String) :=
  if reg.contains u then .error ("Client " ++ u ++ " already exists")
  else .ok (reg ++ [u])

/-- An atomic step of an authentication path: resolving the identity with the
provider (or the cache), or registering the resolved identity. -/
inductive PathStep where
  | resolve (u : String)
  | register (u : String)
deriving DecidableEq, Repr

/-- The observable outcome of one step. -/
inductive StepResult where
  | resolved (u : String)
  | registerOk (u : String)
  | registerFail (u : String) (msg : String)
deriving DecidableEq, Repr

/-- Running a sequence of steps against the identity registry: resolution
always succeeds (authentication itself succeeded in the acknowledged race);
registration succeeds or fails according to registerClient, and a failed
registration leaves the registry as it was. -/
def runSteps (reg : List String) : List PathStep → List String × List StepResult
  | [] => (reg, [])
  | .resolve u :: rest =>
      let (r, out) := runSteps reg rest
      (r, .resolved u :: out)
  | .register u :: rest =>
      match registerClient reg u with
      | .ok reg2 =>
          let (r, out) := runSteps reg2 rest
          (r, .registerOk u :: out)
      | .error m =>
          let (r, out) := runSteps reg rest
          (r, .registerFail u m :: out)

/-- The cache-hit authentication path for identity u: resolve from the cache,
then register. -/
def cacheHitPath (u : String) : List PathStep :=
  [.resolve u, .register u]

/-- The fresh device-flow path for identity u: resolve through the provider,
then register. -/
def deviceFlowPath (u : String) : List PathStep :=
  [.resolve u, .register u]

/-- An interleaving of two sequences of steps preserving each sequence's
internal order. -/
inductive Interleave : List PathStep → List PathStep → List PathStep → Prop
  | nil : Interleave [] [] []
  | left {x xs ys zs} : Interleave xs ys zs → Interleave (x :: xs) ys (x :: zs)
  | right {y xs ys zs} : Interleave xs ys zs → Interleave xs (y :: ys) (y :: zs)

/-! ## C9 — the get_instances sort comparator (ClientManager.tsx pollStatus) -/

/-- From ClientManager.tsx pollStatus: one dot-separated version component as
coerced by the comparator — JavaScript Number followed by the or-else-0
coalescing (a NaN from a non-numeric component, like a missing component, is
replaced by 0; version components are decimal digit strings). -/
def componentVal (s : String) : Nat :=
  if s.all Char.isDigit then (s.toNat?).getD 0 else 0

/-- From ClientManager.tsx pollStatus: the version string split on dots and
coerced component-wise. -/
def versionParts (v : String) : List Nat :=
  (v.splitOn ".").map componentVal

/-- From ClientManager.tsx pollStatus: the component loop of the comparator —
walk the positions up to the longer list, reading a missing position as 0,
and return v2 - v1 at the first differing position, 0 if none differs. -/
def cmpParts : List Nat → List Nat → Int
  | [], [] => 0
  | [], b :: bs => if 0 ≠ b then (b : Int) - 0 else cmpParts [] bs
  | a :: as_, [] => if a ≠ 0 then 0 - (a : Int) else cmpParts as_ []
  | a :: as_, b :: bs => if a ≠ b then (b : Int) - (a : Int) else cmpParts as_ bs

/-- From ClientManager.tsx pollStatus: the full comparator over poll response
entries — version components first, then descending server-name length on a
tie. -/
def pollCompare (c1 c2 : BackendClientConnection) : Int :=
  if cmpParts (versionParts c1.version) (versionParts c2.version) ≠ 0 then
    cmpParts (versionParts c1.version) (versionParts c2.version)
  else (c2.server.name.length : Int) - (c1.server.name.length : Int)

/-- From ClientManager.tsx pollStatus: a poll-response entry as produced by
Object.entries — the connection key, the liveness flag and the backend
connection record. -/
def pollEntryCompare (e1 e2 : String × Bool × BackendClientConnection) : Int :=
  pollCompare e1.2.2 e2.2.2

/-- From ClientManager.tsx pollStatus: the row built from a sorted entry —
connection id, server name, version and the polled liveness flag. -/
def toConnection (e : String × Bool × BackendClientConnection) : Connection :=
  ⟨e.2.2.id, e.2.2.server.name, e.2.2.version, e.2.1⟩

/-- From ClientManager.tsx pollStatus: the connection list rendered from a
poll response — the entries sorted by the comparator, then mapped to rows.
JavaScript Array.prototype.sort with a consistent comparator is a comparison
sort; it is modelled by the stable mergeSort under the comparator's
non-positive relation. -/
def pollStatusConnections (response : List (String × Bool × BackendClientConnection)) :
    List Connection :=
  (response.mergeSort (fun a b => pollEntryCompare a b ≤ 0)).map toConnection

/-- The claim's reading of a version component at a position: position-wise
with missing components treated as 0. -/
def partAt (xs : List Nat) (i : Nat) : Nat :=
  xs.getD i 0

/-- The claim's strict descending version order: some position strictly
larger on the left, all earlier positions equal. -/
def VersionGtSpec (p1 p2 : List Nat) : Prop :=
  ∃ i, (∀ j, j < i → partAt p1 j = partAt p2 j) ∧ partAt p2 i < partAt p1 i

/-- The claim's version equality: every position equal, missing components
read as 0. -/
def VersionEqSpec (p1 p2 : List Nat) : Prop :=
  ∀ i, partAt p1 i = partAt p2 i

/-- The claim's pairwise order on rendered connection rows: strictly
descending version, and on equal versions descending server-name length (a
row's server field is the server's name). -/
def PollOrder (c1 c2 : Connection) : Prop :=
  VersionGtSpec (versionParts c1.version) (versionParts c2.version) ∨
    (VersionEqSpec (versionParts c1.version) (versionParts c2.version) ∧
      c2.server.length ≤ c1.server.length)

/-! ## Helper lemmas -/

lemma authenticateOffline_fst (reg : List OfflineClient) (u : String) :
    (authenticateOffline reg u).1 = deriveOfflineProfileId u := by
  unfold authenticateOffline
  dsimp only
  split <;> rfl

lemma authenticateOffline_registered (reg : List OfflineClient) (u : String) :
    ((authenticateOffline reg u).2).any
      (fun c => c.id == deriveOfflineProfileId u) = true := by
  unfold authenticateOffline
  dsimp only
  by_cases h : reg.any (fun c => c.id == deriveOfflineProfileId u) <;>
    simp [h]

lemma chatListenStep_self (connId : String) (history : String → List String)
    (e : ChatEvent) :
    chatListenStep connId history e connId =
      history connId ++ [e.payload.Chat.message] := by
  simp [chatListenStep]

lemma chatListenStep_other (connId k : String) (history : String → List String)
    (e : ChatEvent) (h : k ≠ connId) :
    chatListenStep connId history e k = history k := by
  simp [chatListenStep, h]

/-! ## Claim theorems (first group) -/

/-- C2: any two calls to authenticateOffline with the same username yield the
same derived profile identifier — the second call, run on the registry state
left by the first, returns the same identifier and reuses (does not re-add)
the registered offline profile.  The derivation is a pure function of the
username, so no network call is involved. -/
theorem c2_offline_auth_deterministic (reg : List OfflineClient) (username : String) :
    (authenticateOffline (authenticateOffline reg username).2 username).1 =
      (authenticateOffline reg username).1 ∧
    (authenticateOffline (authenticateOffline reg username).2 username).2 =
      (authenticateOffline reg username).2 := by
  constructor
  · rw [authenticateOffline_fst, authenticateOffline_fst]
  · have h := authenticateOffline_registered reg username
    conv_lhs => rw [authenticateOffline]
    simp [h]

/-- C10: finishAuth always invokes auth_ms_finish with register set to true,
so every device-flow completion issued through the interface runs the
persisting branch of finishDeviceFlow and writes the resolved token into the
credential cache under the login key. -/
theorem c10_finish_auth_always_persists (key token : String)
    (cache : List (String × String)) :
    (finishAuth key).register = true ∧
    (finishDeviceFlow cache (finishAuth key).loginKey (finishAuth key).register
        token).lookup key = some token := by
  refine ⟨rfl, ?_⟩
  simp [finishAuth, finishDeviceFlow, List.lookup]

/-- C5: when authenticateCached fails (with CacheMissError or any other
failure), the handler falls back to the device flow by invoking auth_ms_init
with the same login key, and no error label is surfaced to the user. -/
theorem c5_cache_miss_fallback (loginKey e : String) (h : jsTrim loginKey ≠ "") :
    handleAuthenticateMs loginKey (Except.error e) =
      some (MsAuthAction.deviceFlowInit loginKey, none) := by
  simp [handleAuthenticateMs, msAuthStep, h]

theorem c5_cache_miss_fallback_witness :
    handleAuthenticateMs "alice" (Except.error "CacheMissError") =
      some (MsAuthAction.deviceFlowInit "alice", none) :=
  c5_cache_miss_fallback "alice" "CacheMissError" (by decide)

/-- C3: chat events on one connection channel are delivered in production
order — after any sequence of events, the subscriber's accumulated history
for that connection equals the prior history extended by the event messages
in order, and histories of other connections are untouched. -/
theorem c3_chat_delivery_order (connId : String) (history : String → List String)
    (events : List ChatEvent) :
    processChatEvents connId history events connId =
      history connId ++ events.map (fun e => e.payload.Chat.message) ∧
    ∀ k, k ≠ connId → processChatEvents connId history events k = history k := by
  induction events generalizing history with
  | nil => simp [processChatEvents]
  | cons e rest ih =>
    have hstep : processChatEvents connId history (e :: rest) =
        processChatEvents connId (chatListenStep connId history e) rest := rfl
    have h1 := ih (chatListenStep connId history e)
    constructor
    · rw [hstep, h1.1, chatListenStep_self]
      simp
    · intro k hk
      rw [hstep, h1.2 k hk, chatListenStep_other connId k history e hk]

theorem c3_chat_delivery_order_witness :
    processChatEvents "conn" (fun _ => [])
        [⟨"chat", none, ⟨⟨"hello"⟩⟩⟩, ⟨"chat", none, ⟨⟨"world"⟩⟩⟩] "conn" =
      ["hello", "world"] ∧
    processChatEvents "conn" (fun _ => [])
        [⟨"chat", none, ⟨⟨"hello"⟩⟩⟩, ⟨"chat", none, ⟨⟨"world"⟩⟩⟩] "other" = [] := by
  constructor
  · have h := (c3_chat_delivery_order "conn" (fun _ => [])
      [⟨"chat", none, ⟨⟨"hello"⟩⟩⟩, ⟨"chat", none, ⟨⟨"world"⟩⟩⟩]).1
    simpa using h
  · exact (c3_chat_delivery_order "conn" (fun _ => [])
      [⟨"chat", none, ⟨⟨"hello"⟩⟩⟩, ⟨"chat", none, ⟨⟨"world"⟩⟩⟩]).2 "other" (by decide)

/-- C7: recallAuthentication returns a boolean validity flag; whenever the
flag is false the stored client (profile included) is returned unmodified,
and an expired cached token yields exactly the false flag with the client
untouched. -/
theorem c7_recall_auth_frame (now : Nat) (c : StoredClient) :
    ((recallAuthentication now c).1 = false →
      (recallAuthentication now c).2 = c) ∧
    (∀ t, c.cachedToken = some t → t.validUntil ≤ now →
      recallAuthentication now c = (false, c)) := by
  constructor
  · intro hfalse
    cases hc : c.cachedToken with
    | none => simp [recallAuthentication, hc]
    | some t =>
      by_cases hn : now < t.validUntil
      · exfalso
        simp [recallAuthentication, hc, hn] at hfalse
      · simp [recallAuthentication, hc, hn]
  · intro t ht hle
    have hn : ¬ now < t.validUntil := by omega
    simp [recallAuthentication, ht, hn]

theorem c7_recall_auth_frame_witness :
    recallAuthentication 100 ⟨"cid", ⟨"u-1", "Steve", [], []⟩, some ⟨"tok", 50⟩⟩ =
      (false, ⟨"cid", ⟨"u-1", "Steve", [], []⟩, some ⟨"tok", 50⟩⟩) :=
  (c7_recall_auth_frame 100 ⟨"cid", ⟨"u-1", "Steve", [], []⟩, some ⟨"tok", 50⟩⟩).2
    ⟨"tok", 50⟩ rfl (by decide)

/-- C8: there is an interleaving of the cache-hit path and the device-flow
path for the same identity in which both paths attempt registration: both
resolutions succeed, the earlier registration succeeds and the later one
fails with the duplicate-identity error "Client <username> already exists". -/
theorem c8_auth_registration_race (u : String) :
    ∃ t, Interleave (cacheHitPath u) (deviceFlowPath u) t ∧
      runSteps [] t =
        ([u], [StepResult.resolved u, StepResult.registerOk u,
               StepResult.resolved u,
               StepResult.registerFail u ("Client " ++ u ++ " already exists")]) := by
  refine ⟨[.resolve u, .register u, .resolve u, .register u], ?_, ?_⟩
  · exact Interleave.left (Interleave.left (Interleave.right
      (Interleave.right Interleave.nil)))
  · simp [runSteps, registerClient]

lemma createConnection_preserves_unique (table : List ConnEntry) (s v i : String)
    (h : UniquePairs table) : UniquePairs (createConnection table s v i).2 := by
  by_cases hany : table.any (fun c => c.server == s && c.version == v) = true
  · simpa [createConnection, hany] using h
  · have hall : ∀ c ∈ table, ¬(c.server = s ∧ c.version = v) := by
      intro c hc hcontra
      apply hany
      rw [List.any_eq_true]
      exact ⟨c, hc, by simp [hcontra.1, hcontra.2]⟩
    have htab : (createConnection table s v i).2 = table ++ [⟨i, s, v⟩] := by
      simp [createConnection, hany]
    rw [htab]
    unfold UniquePairs at h ⊢
    rw [List.pairwise_append]
    refine ⟨h, List.pairwise_singleton _ _, ?_⟩
    intro a ha b hb
    simp only [List.mem_singleton] at hb
    subst hb
    intro hcontra
    exact hall a ha ⟨hcontra.1, hcontra.2⟩

lemma applyCreates_preserves_unique (reqs : List (String × String × String)) :
    ∀ table, UniquePairs table → UniquePairs (applyCreates table reqs) := by
  induction reqs with
  | nil => intro table h; simpa [applyCreates] using h
  | cons r rest ih =>
    intro table h
    obtain ⟨s, v, i⟩ := r
    exact ih _ (createConnection_preserves_unique table s v i h)

lemma sendChatMessage_some (client : Option ClientEntry) (chatMessage : String)
    (conn : Connection) (message : String) (inv : SendChatInvoke)
    (h : sendChatMessage client chatMessage conn message = some inv) :
    jsTrim chatMessage ≠ "" ∧ inv.message = message := by
  cases client with
  | none => simp [sendChatMessage] at h
  | some c =>
    by_cases ht : jsTrim chatMessage ≠ ""
    · refine ⟨ht, ?_⟩
      simp only [sendChatMessage] at h
      rw [if_pos ht] at h
      injection h with h
      rw [← h]
    · simp [sendChatMessage, ht] at h

/-! ## Claim theorems (second group) -/

/-- C1: a create_connection call for a (serverName, version) pair already in
the client's connection table fails with DuplicateConnectionError and leaves
the table unchanged; any sequence of create_connection calls preserves the
uniqueness of (server, version) pairs; and the frontend Create button guard
refuses a duplicate pair with an error label without invoking the command. -/
theorem c1_duplicate_connection_rejected :
    (∀ (table : List ConnEntry) (s v i : String),
        (∃ c ∈ table, c.server = s ∧ c.version = v) →
        createConnection table s v i =
          (.error .DuplicateConnectionError, table)) ∧
    (∀ (table : List ConnEntry) (reqs : List (String × String × String)),
        UniquePairs table → UniquePairs (applyCreates table reqs)) ∧
    (∀ (clientId : String) (conns : List Connection) (s v : String),
        v ≠ "" → s ≠ "" → (∃ c ∈ conns, c.server = s ∧ c.version = v) →
        createButtonClick clientId conns s v =
          .setError "Connection with this server and version already exists") := by
  refine ⟨?_, ?_, ?_⟩
  · intro table s v i hex
    obtain ⟨c, hc, hs, hv⟩ := hex
    have hany : table.any (fun c => c.server == s && c.version == v) = true := by
      rw [List.any_eq_true]
      exact ⟨c, hc, by simp [hs, hv]⟩
    simp [createConnection, hany]
  · intro table reqs h
    exact applyCreates_preserves_unique reqs table h
  · intro clientId conns s v hv hs hex
    obtain ⟨c, hc, hcs, hcv⟩ := hex
    have hany : conns.any (fun c => c.server == s && c.version == v) = true := by
      rw [List.any_eq_true]
      exact ⟨c, hc, by simp [hcs, hcv]⟩
    simp [createButtonClick, hv, hs, hany]

theorem c1_duplicate_connection_rejected_witness :
    createConnection [⟨"c1", "Hub", "1.21"⟩] "Hub" "1.21" "c2" =
      (.error .DuplicateConnectionError, [⟨"c1", "Hub", "1.21"⟩]) ∧
    UniquePairs (applyCreates [] [("Hub", "1.21", "a"), ("Hub", "1.21", "b")]) ∧
    createButtonClick "client" [⟨"c1", "Hub", "1.21", false⟩] "Hub" "1.21" =
      .setError "Connection with this server and version already exists" := by
  refine ⟨?_, ?_, ?_⟩
  · exact c1_duplicate_connection_rejected.1 [⟨"c1", "Hub", "1.21"⟩] "Hub" "1.21" "c2"
      ⟨⟨"c1", "Hub", "1.21"⟩, by simp, rfl, rfl⟩
  · exact c1_duplicate_connection_rejected.2.1 []
      [("Hub", "1.21", "a"), ("Hub", "1.21", "b")] (by simp [UniquePairs])
  · exact c1_duplicate_connection_rejected.2.2 "client"
      [⟨"c1", "Hub", "1.21", false⟩] "Hub" "1.21" (by decide) (by decide)
      ⟨⟨"c1", "Hub", "1.21", false⟩, by simp, rfl, rfl⟩

/-- C4: add_server with a name already present fails with
DuplicateServerError, the persisted registry document is byte-for-byte
unchanged, no entry is added to the in-memory registry, and the frontend
leaves its rendered list unchanged on that failure. -/
theorem c4_duplicate_server_rejected (st : ServerStore) (entry : ServerEntry)
    (h : ∃ s ∈ st.servers, s.name = entry.name) :
    addServer st entry = (.error .DuplicateServerError, st) ∧
    (addServer st entry).2.doc = st.doc ∧
    (addServer st entry).2.servers = st.servers ∧
    ∀ rendered, handleSubmitServers rendered entry (addServer st entry).1 = rendered := by
  obtain ⟨s, hs, hname⟩ := h
  have hany : st.servers.any (fun x => x.name == entry.name) = true := by
    rw [List.any_eq_true]
    exact ⟨s, hs, by simp [hname]⟩
  have heq : addServer st entry = (.error .DuplicateServerError, st) := by
    simp [addServer, hany]
  refine ⟨heq, by rw [heq], by rw [heq], ?_⟩
  intro rendered
  rw [heq]
  rfl

theorem c4_duplicate_server_rejected_witness :
    addServer ⟨[⟨"Hub", "play.example.com", 25565⟩],
        serializeServers [⟨"Hub", "play.example.com", 25565⟩]⟩
      ⟨"Hub", "other.example.com", 25566⟩ =
      (.error .DuplicateServerError,
        ⟨[⟨"Hub", "play.example.com", 25565⟩],
          serializeServers [⟨"Hub", "play.example.com", 25565⟩]⟩) :=
  (c4_duplicate_server_rejected
    ⟨[⟨"Hub", "play.example.com", 25565⟩],
      serializeServers [⟨"Hub", "play.example.com", 25565⟩]⟩
    ⟨"Hub", "other.example.com", 25566⟩
    ⟨⟨"Hub", "play.example.com", 25565⟩, by simp, rfl⟩).1

/-- C6: at the observed command surface a blank message is never forwarded —
both chat-entry paths produce a send_chat invocation only when the trimmed
message is non-empty, the forwarded message is exactly the typed one, and
every non-blank typed message does produce its invocation; the modelled
backend sendChat rejects a blank message with EmptyMessageError and forwards
every non-blank message on a connected session. -/
theorem c6_blank_chat_never_forwarded :
    (∀ (key : String) (client : Option ClientEntry) (chatMessage : String)
        (conn : Connection) (inv : SendChatInvoke),
        chatInputKeyDown key client chatMessage conn = some inv →
        jsTrim inv.message ≠ "" ∧ inv.message = chatMessage) ∧
    (∀ (client : Option ClientEntry) (chatMessage : String)
        (conn : Connection) (inv : SendChatInvoke),
        sendButtonClick client chatMessage conn = some inv →
        jsTrim inv.message ≠ "" ∧ inv.message = chatMessage) ∧
    (∀ (c : ClientEntry) (chatMessage : String) (conn : Connection),
        jsTrim chatMessage ≠ "" →
        sendButtonClick (some c) chatMessage conn =
          some ⟨c.id, conn.id, chatMessage⟩) ∧
    (∀ (connected : Bool) (message : String), jsTrim message = "" →
        sendChat connected message = .error .EmptyMessageError) ∧
    (∀ (message : String), jsTrim message ≠ "" →
        sendChat true message = .ok message) := by
  refine ⟨?_, ?_, ?_, ?_, ?_⟩
  · intro key client chatMessage conn inv h
    by_cases hcond : key = "Enter" ∧ jsTrim chatMessage ≠ ""
    · rw [chatInputKeyDown, if_pos hcond] at h
      have := sendChatMessage_some client chatMessage conn chatMessage inv h
      exact ⟨this.2 ▸ this.1, this.2⟩
    · rw [chatInputKeyDown, if_neg hcond] at h
      exact absurd h (by simp)
  · intro client chatMessage conn inv h
    by_cases hcond : jsTrim chatMessage ≠ ""
    · rw [sendButtonClick, if_pos hcond] at h
      have := sendChatMessage_some client chatMessage conn chatMessage inv h
      exact ⟨this.2 ▸ this.1, this.2⟩
    · rw [sendButtonClick, if_neg hcond] at h
      exact absurd h (by simp)
  · intro c chatMessage conn hmsg
    rw [sendButtonClick, if_pos hmsg, sendChatMessage, if_pos hmsg]
  · intro connected message hblank
    simp [sendChat, hblank]
  · intro message hmsg
    simp [sendChat, hmsg]

theorem c6_blank_chat_never_forwarded_witness :
    (jsTrim "hi" ≠ "" ∧ "hi" = "hi") ∧
    sendButtonClick (some ⟨"cid", "user", true, none, 0⟩) "hi"
        ⟨"i1", "Hub", "1.21", true⟩ = some ⟨"cid", "i1", "hi"⟩ ∧
    sendChat true " " = .error .EmptyMessageError ∧
    sendChat true "hi" = .ok "hi" := by
  refine ⟨?_, ?_, ?_, ?_⟩
  · exact c6_blank_chat_never_forwarded.1 "Enter"
      (some ⟨"cid", "user", true, none, 0⟩) "hi" ⟨"i1", "Hub", "1.21", true⟩
      ⟨"cid", "i1", "hi"⟩ (by decide)
  · exact c6_blank_chat_never_forwarded.2.2.1 ⟨"cid", "user", true, none, 0⟩
      "hi" ⟨"i1", "Hub", "1.21", true⟩ (by decide)
  · exact c6_blank_chat_never_forwarded.2.2.2.1 true " " (by decide)
  · exact c6_blank_chat_never_forwarded.2.2.2.2 "hi" (by decide)

/-! ## C9 helper lemmas: the comparator against the positional order -/

lemma partAt_nil (i : Nat) : partAt [] i = 0 := by
  simp [partAt]

lemma partAt_cons_zero (a : Nat) (xs : List Nat) : partAt (a :: xs) 0 = a := rfl

lemma partAt_cons_succ (a : Nat) (xs : List Nat) (i : Nat) :
    partAt (a :: xs) (i + 1) = partAt xs i := rfl

lemma vEq_refl (xs : List Nat) : VersionEqSpec xs xs := fun _ => rfl

lemma vEq_trans {xs ys zs : List Nat} (h1 : VersionEqSpec xs ys)
    (h2 : VersionEqSpec ys zs) : VersionEqSpec xs zs :=
  fun i => (h1 i).trans (h2 i)

lemma vEq_nil_cons (b : Nat) (ys : List Nat) :
    VersionEqSpec [] (b :: ys) ↔ b = 0 ∧ VersionEqSpec [] ys := by
  constructor
  · intro h
    constructor
    · have := h 0
      simpa [partAt_nil, partAt_cons_zero] using this.symm
    · intro i
      have := h (i + 1)
      simpa [partAt_nil, partAt_cons_succ] using this
  · rintro ⟨hb, h⟩ i
    cases i with
    | zero => simp [partAt_nil, partAt_cons_zero, hb]
    | succ i =>
      have := h i
      simpa [partAt_nil, partAt_cons_succ] using this

lemma vEq_cons_cons (a b : Nat) (xs ys : List Nat) :
    VersionEqSpec (a :: xs) (b :: ys) ↔ a = b ∧ VersionEqSpec xs ys := by
  constructor
  · intro h
    constructor
    · have := h 0
      simpa [partAt_cons_zero] using this
    · intro i
      have := h (i + 1)
      simpa [partAt_cons_succ] using this
  · rintro ⟨hab, h⟩ i
    cases i with
    | zero => simpa [partAt_cons_zero] using hab
    | succ i => simpa [partAt_cons_succ] using h i

lemma vEq_symm {xs ys : List Nat} (h : VersionEqSpec xs ys) :
    VersionEqSpec ys xs := fun i => (h i).symm

lemma vGt_nil_left (ys : List Nat) : ¬ VersionGtSpec [] ys := by
  rintro ⟨i, _, hlt⟩
  rw [partAt_nil] at hlt
  exact Nat.not_lt_zero _ hlt

lemma vGt_cons_cons (a b : Nat) (xs ys : List Nat) :
    VersionGtSpec (a :: xs) (b :: ys) ↔ b < a ∨ (a = b ∧ VersionGtSpec xs ys) := by
  constructor
  · rintro ⟨i, hpre, hlt⟩
    cases i with
    | zero =>
      left
      simpa [partAt_cons_zero] using hlt
    | succ i =>
      right
      have hab : a = b := by
        have := hpre 0 (Nat.succ_pos i)
        simpa [partAt_cons_zero] using this
      refine ⟨hab, i, fun j hj => ?_, ?_⟩
      · have := hpre (j + 1) (Nat.succ_lt_succ hj)
        simpa [partAt_cons_succ] using this
      · simpa [partAt_cons_succ] using hlt
  · rintro (hlt | ⟨hab, i, hpre, hlt⟩)
    · exact ⟨0, fun j hj => absurd hj (Nat.not_lt_zero j),
        by simpa [partAt_cons_zero] using hlt⟩
    · refine ⟨i + 1, fun j hj => ?_, by simpa [partAt_cons_succ] using hlt⟩
      cases j with
      | zero => simpa [partAt_cons_zero] using hab
      | succ j =>
        have := hpre j (Nat.lt_of_succ_lt_succ hj)
        simpa [partAt_cons_succ] using this

lemma vGt_cons_nil (a : Nat) (xs : List Nat) :
    VersionGtSpec (a :: xs) [] ↔ 0 < a ∨ (a = 0 ∧ VersionGtSpec xs []) := by
  constructor
  · rintro ⟨i, hpre, hlt⟩
    cases i with
    | zero =>
      left
      simpa [partAt_nil, partAt_cons_zero] using hlt
    | succ i =>
      right
      have hab : a = 0 := by
        have := hpre 0 (Nat.succ_pos i)
        simpa [partAt_nil, partAt_cons_zero] using this
      refine ⟨hab, i, fun j hj => ?_, ?_⟩
      · have := hpre (j + 1) (Nat.succ_lt_succ hj)
        simpa [partAt_nil, partAt_cons_succ] using this
      · simpa [partAt_nil, partAt_cons_succ] using hlt
  · rintro (hlt | ⟨hab, i, hpre, hlt⟩)
    · exact ⟨0, fun j hj => absurd hj (Nat.not_lt_zero j),
        by simpa [partAt_nil, partAt_cons_zero] using hlt⟩
    · refine ⟨i + 1, fun j hj => ?_,
        by simpa [partAt_nil, partAt_cons_succ] using hlt⟩
      cases j with
      | zero => simpa [partAt_nil, partAt_cons_zero] using hab
      | succ j =>
        have := hpre j (Nat.lt_of_succ_lt_succ hj)
        simpa [partAt_nil, partAt_cons_succ] using this

lemma cmpParts_swap : ∀ (xs ys : List Nat), cmpParts ys xs = - cmpParts xs ys
  | [], [] => by simp [cmpParts]
  | [], b :: bs => by
      rw [cmpParts, cmpParts]
      by_cases hb : b = 0
      · subst hb
        simpa using cmpParts_swap [] bs
      · rw [if_pos hb, if_pos (Ne.symm hb)]
        omega
  | a :: as_, [] => by
      rw [cmpParts, cmpParts]
      by_cases ha : a = 0
      · subst ha
        simpa using cmpParts_swap as_ []
      · rw [if_pos (Ne.symm ha), if_pos ha]
        omega
  | a :: as_, b :: bs => by
      rw [cmpParts, cmpParts]
      by_cases hab : a = b
      · subst hab
        simpa using cmpParts_swap as_ bs
      · rw [if_pos (Ne.symm hab), if_pos hab]
        omega
termination_by xs ys => xs.length + ys.length

lemma cmpParts_nil_nonneg : ∀ (ys : List Nat), 0 ≤ cmpParts [] ys
  | [] => by simp [cmpParts]
  | b :: bs => by
      rw [cmpParts]
      by_cases hb : b = 0
      · subst hb
        simpa using cmpParts_nil_nonneg bs
      · rw [if_pos (Ne.symm hb)]
        omega

lemma cmpParts_eq_zero_iff :
    ∀ (xs ys : List Nat), cmpParts xs ys = 0 ↔ VersionEqSpec xs ys
  | [], [] => by
      constructor
      · intro _
        exact vEq_refl []
      · intro _
        simp [cmpParts]
  | [], b :: bs => by
      rw [cmpParts, vEq_nil_cons]
      by_cases hb : b = 0
      · subst hb
        simpa using cmpParts_eq_zero_iff [] bs
      · rw [if_pos (Ne.symm hb)]
        constructor
        · intro h
          exfalso
          omega
        · rintro ⟨h, _⟩
          exact absurd h hb
  | a :: as_, [] => by
      rw [cmpParts]
      by_cases ha : a = 0
      · subst ha
        rw [if_neg (by simp)]
        rw [cmpParts_eq_zero_iff as_ []]
        constructor
        · intro h i
          cases i with
          | zero => simp [partAt_nil, partAt_cons_zero]
          | succ i =>
            have := h i
            simpa [partAt_nil, partAt_cons_succ] using this
        · intro h i
          have := h (i + 1)
          simpa [partAt_nil, partAt_cons_succ] using this
      · rw [if_pos ha]
        constructor
        · intro h
          exfalso
          omega
        · intro h
          have := h 0
          rw [partAt_nil, partAt_cons_zero] at this
          exact absurd this ha
  | a :: as_, b :: bs => by
      rw [cmpParts, vEq_cons_cons]
      by_cases hab : a = b
      · subst hab
        simpa using cmpParts_eq_zero_iff as_ bs
      · rw [if_pos hab]
        constructor
        · intro h
          exfalso
          omega
        · rintro ⟨h, _⟩
          exact absurd h hab

lemma cmpParts_neg_iff :
    ∀ (xs ys : List Nat), cmpParts xs ys < 0 ↔ VersionGtSpec xs ys
  | [], ys => by
      constructor
      · intro h
        exact absurd h (not_lt_of_le (cmpParts_nil_nonneg ys))
      · intro h
        exact absurd h (vGt_nil_left ys)
  | a :: as_, [] => by
      rw [cmpParts, vGt_cons_nil]
      by_cases ha : a = 0
      · subst ha
        rw [if_neg (by simp)]
        rw [cmpParts_neg_iff as_ []]
        constructor
        · intro h
          exact Or.inr ⟨rfl, h⟩
        · rintro (h | ⟨_, h⟩)
          · exact absurd h (lt_irrefl 0)
          · exact h
      · rw [if_pos ha]
        constructor
        · intro _
          exact Or.inl (Nat.pos_of_ne_zero ha)
        · intro _
          omega
  | a :: as_, b :: bs => by
      rw [cmpParts, vGt_cons_cons]
      by_cases hab : a = b
      · subst hab
        rw [if_neg (by simp)]
        rw [cmpParts_neg_iff as_ bs]
        constructor
        · intro h
          exact Or.inr ⟨rfl, h⟩
        · rintro (h | ⟨_, h⟩)
          · exact absurd h (lt_irrefl a)
          · exact h
      · rw [if_pos hab]
        constructor
        · intro h
          left
          omega
        · rintro (h | ⟨h, _⟩)
          · omega
          · exact absurd h hab

lemma vGt_trans {xs ys zs : List Nat} (h1 : VersionGtSpec xs ys)
    (h2 : VersionGtSpec ys zs) : VersionGtSpec xs zs := by
  obtain ⟨i1, p1, d1⟩ := h1
  obtain ⟨i2, p2, d2⟩ := h2
  refine ⟨min i1 i2, fun j hj => ?_, ?_⟩
  · have hj1 : j < i1 := lt_of_lt_of_le hj (min_le_left _ _)
    have hj2 : j < i2 := lt_of_lt_of_le hj (min_le_right _ _)
    exact (p1 j hj1).trans (p2 j hj2)
  · rcases lt_trichotomy i1 i2 with h | h | h
    · rw [min_eq_left (le_of_lt h)]
      calc partAt zs i1 = partAt ys i1 := (p2 i1 h).symm
        _ < partAt xs i1 := d1
    · subst h
      rw [min_self]
      exact lt_trans d2 d1
    · rw [min_eq_right (le_of_lt h)]
      calc partAt zs i2 < partAt ys i2 := d2
        _ = partAt xs i2 := (p1 i2 h).symm

lemma vGt_vEq {xs ys zs : List Nat} (h1 : VersionGtSpec xs ys)
    (h2 : VersionEqSpec ys zs) : VersionGtSpec xs zs := by
  obtain ⟨i, p, d⟩ := h1
  refine ⟨i, fun j hj => (p j hj).trans (h2 j), ?_⟩
  rw [← h2 i]
  exact d

lemma vEq_vGt {xs ys zs : List Nat} (h1 : VersionEqSpec xs ys)
    (h2 : VersionGtSpec ys zs) : VersionGtSpec xs zs := by
  obtain ⟨i, p, d⟩ := h2
  refine ⟨i, fun j hj => (h1 j).trans (p j hj), ?_⟩
  rw [h1 i]
  exact d

lemma not_vGt_of_vEq {xs ys : List Nat} (h : VersionEqSpec xs ys) :
    ¬ VersionGtSpec xs ys := by
  rintro ⟨i, _, d⟩
  rw [h i] at d
  exact lt_irrefl _ d

lemma pollCompare_nonpos_iff (c1 c2 : BackendClientConnection) :
    pollCompare c1 c2 ≤ 0 ↔
      (VersionGtSpec (versionParts c1.version) (versionParts c2.version) ∨
        (VersionEqSpec (versionParts c1.version) (versionParts c2.version) ∧
          c2.server.name.length ≤ c1.server.name.length)) := by
  unfold pollCompare
  by_cases hr : cmpParts (versionParts c1.version) (versionParts c2.version) = 0
  · rw [if_neg (by simpa using hr)]
    constructor
    · intro h
      right
      refine ⟨(cmpParts_eq_zero_iff _ _).mp hr, ?_⟩
      omega
    · rintro (hgt | ⟨_, hlen⟩)
      · exact absurd hgt (not_vGt_of_vEq ((cmpParts_eq_zero_iff _ _).mp hr))
      · omega
  · rw [if_pos hr]
    constructor
    · intro h
      exact Or.inl ((cmpParts_neg_iff _ _).mp (lt_of_le_of_ne h hr))
    · rintro (hgt | ⟨heq, _⟩)
      · exact le_of_lt ((cmpParts_neg_iff _ _).mpr hgt)
      · exact absurd ((cmpParts_eq_zero_iff _ _).mpr heq) hr

lemma pollCompare_swap (c1 c2 : BackendClientConnection) :
    pollCompare c2 c1 = - pollCompare c1 c2 := by
  unfold pollCompare
  have hsw := cmpParts_swap (versionParts c1.version) (versionParts c2.version)
  by_cases hr : cmpParts (versionParts c1.version) (versionParts c2.version) = 0
  · rw [if_neg (by rw [hsw, hr]; simp), if_neg (by simpa using hr)]
    omega
  · rw [if_pos (by omega), if_pos hr]
    omega

lemma pollCompare_le_trans {a b c : BackendClientConnection}
    (h1 : pollCompare a b ≤ 0) (h2 : pollCompare b c ≤ 0) :
    pollCompare a c ≤ 0 := by
  rw [pollCompare_nonpos_iff] at h1 h2 ⊢
  rcases h1 with hgt1 | ⟨heq1, hlen1⟩
  · rcases h2 with hgt2 | ⟨heq2, _⟩
    · exact Or.inl (vGt_trans hgt1 hgt2)
    · exact Or.inl (vGt_vEq hgt1 heq2)
  · rcases h2 with hgt2 | ⟨heq2, hlen2⟩
    · exact Or.inl (vEq_vGt heq1 hgt2)
    · exact Or.inr ⟨vEq_trans heq1 heq2, le_trans hlen2 hlen1⟩

lemma pollCompare_le_total (a b : BackendClientConnection) :
    pollCompare a b ≤ 0 ∨ pollCompare b a ≤ 0 := by
  have := pollCompare_swap a b
  omega

/-! ## Claim theorem C9 -/

/-- C9: the connection list rendered from a get_instances poll response is
sorted pairwise in descending protocol-version order — versions compared as
dot-separated numeric components position-wise with missing components read
as 0 — and two rows with equal versions are ordered by descending length of
their server's name. -/
theorem c9_poll_response_sorted
    (response : List (String × Bool × BackendClientConnection)) :
    (pollStatusConnections response).Pairwise PollOrder := by
  unfold pollStatusConnections
  rw [List.pairwise_map]
  have hsorted : (response.mergeSort
        (fun a b => decide (pollEntryCompare a b ≤ 0))).Pairwise
      (fun a b => decide (pollEntryCompare a b ≤ 0) = true) := by
    apply List.sorted_mergeSort
    · intro a b c hab hbc
      simp only [decide_eq_true_eq, pollEntryCompare] at hab hbc ⊢
      exact pollCompare_le_trans hab hbc
    · intro a b
      simp only [Bool.or_eq_true, decide_eq_true_eq, pollEntryCompare]
      exact pollCompare_le_total a.2.2 b.2.2
  refine hsorted.imp ?_
  intro a b hab
  simp only [decide_eq_true_eq, pollEntryCompare] at hab
  exact (pollCompare_nonpos_iff a.2.2 b.2.2).mp hab

end Clientworks
